import Mathlib

/-!
Verification of the pencil-sketch filter (`src/image.py`, class `PencilSketch`)
against its natural-language specification.

The pipeline is: grayscale (`np.dot` with luma weights, cast to uint8, stacked
to 3 channels) → invert (`255 - x`) → Gaussian blur (`cv2.GaussianBlur`) →
dodge blend → optional sharpen (double-invert `cv2.filter2D`).

Modelling conventions:
* uint8 samples are `ℕ` values in [0, 255].
* The grayscale stage computes `np.dot(frame[..., :3], [0.299, 0.587, 0.114])`
  in IEEE-754 double precision.  The rounding of each constant, product and
  addition is simulated exactly: every intermediate double is a dyadic
  rational `m / 2^s`, represented by the pair `(m, s)` (`Dy` below), and
  `fl64` rounds to a 53-bit significand, to nearest, ties to even.  All
  values occurring here are nonnegative and far from the overflow and
  subnormal ranges, so this is the exact IEEE semantics.  `np.dot`'s
  accumulation order over the three products is BLAS-implementation
  dependent; the model fixes the left-to-right order `(p0 + p1) + p2`.
  Every concrete input used in a theorem below was checked to give the same
  truncated value under all six orders and under fused multiply-add
  accumulation, so no statement depends on the choice.
* The dodge stage computes `back * 255.0 / (255.0 - front)` in float64 and
  is modelled in exact integer arithmetic (`dodgePixel`).  Justification:
  for `front ≠ 255` the products and differences are exact in float64
  (integers ≤ 65025) and the single rounded division has absolute error
  < 2⁻⁵³·65025 < 10⁻¹¹, while the exact quotient `255·back/(255−front)` is
  a rational with denominator ≤ 255, hence at distance 0 or ≥ 1/255 from
  every integer; moreover when the quotient is an integer the correctly
  rounded division is exact.  So the comparison with 255 and the final
  `astype('uint8')` truncation agree between the float64 run and exact
  arithmetic, where `255·back/(255−front) > 255 ↔ 255−front < back` and the
  truncated quotient is natural-number division.  For `front = 255` the
  float64 run produces +inf (`back > 0`, both masks apply, giving 255) or
  NaN (`back = 0`); NaN survives both masks (`NaN > 255` is false and
  `back == 255` is false) and reaches `astype('uint8')`, whose result for
  NaN is unspecified — modelled as `Option.none`.
* `cv2.GaussianBlur(img, ksize, sigmaX)` is an external library call.  The
  model `blurK` is a 2D correlation with an arbitrary kernel of rationals
  `Kn[i][j] / D` (integer numerators over a common positive denominator,
  which is exactly the form of OpenCV's fixed-point uint8 Gaussian
  pipeline), with OpenCV's documented default border
  `BORDER_DEFAULT = BORDER_REFLECT_101`, rounding to nearest and uint8
  saturation.  Theorems about the blur quantify over `Kn` and `D`,
  constrained only by properties the real Gaussian kernel satisfies
  (coefficients summing to exactly 1, i.e. `ksum Kn = D`), so they cover
  the kernel OpenCV derives for any sigma and ksize.
* `cv2.filter2D(src, ddepth=-1, kernel)` on uint8 input with the integer
  kernel built in `__init__` is modelled exactly: correlation with the
  kernel anchored at its centre element (OpenCV anchor `(-1,-1)` means
  element `(rows/2, cols/2)`), `BORDER_REFLECT_101` borders, and
  `saturate_cast<uchar>` (clamp to [0, 255]; the sums are integers so the
  rounding inside `saturate_cast` is the identity).
* The dodge stage may emit the unspecified NaN cast, so buffers from that
  point on carry `Option ℕ` samples, `none` meaning "an unspecified uint8";
  the sharpen convolution propagates `none` through any window containing
  it.
-/

namespace PencilSketch

/-! ## IEEE-754 double precision, simulated exactly on dyadic rationals -/

/-- Bit length of a natural number (`bitlenF fuel n = ⌊log₂ n⌋ + 1` for
`n > 0` and enough fuel), with explicit fuel so that it is structurally
recursive and kernel-reducible. -/
def bitlenF : ℕ → ℕ → ℕ
  | 0, _ => 0
  | fuel + 1, n => if n = 0 then 0 else bitlenF fuel (n / 2) + 1

/-- Bit length, with enough fuel for every number occurring in this file. -/
def bitlen (n : ℕ) : ℕ := bitlenF 4096 n

/-- Round the nonnegative rational `a / b` (`b ≠ 0`) to the nearest integer,
ties to even. -/
def rneDiv (a b : ℕ) : ℕ :=
  let q := a / b
  let r := a % b
  if 2 * r < b then q
  else if b < 2 * r then q + 1
  else if q % 2 = 0 then q else q + 1

/-- Floor of the base-2 logarithm of `a / b`, for positive `a`, `b`. -/
def floorLog2 (a b : ℕ) : ℤ :=
  let e0 : ℤ := (bitlen a : ℤ) - (bitlen b : ℤ)
  if 0 ≤ e0 then
    if a < b * 2 ^ e0.toNat then e0 - 1 else e0
  else
    if a * 2 ^ (-e0).toNat < b then e0 - 1 else e0

/-- A nonnegative dyadic rational `m / 2^s`.  Every positive IEEE-754 double
in the ranges occurring in this development has this form. -/
structure Dy where
  m : ℕ
  s : ℕ
  deriving DecidableEq

/-- Round a nonnegative dyadic rational to 53 significant bits, to nearest,
ties to even: the rounding a float64 arithmetic operation applies to its
exact result.  (All values in this development are far below the overflow
threshold and far above the subnormal range, where this is the complete
IEEE-754 semantics.) -/
def fl64 (d : Dy) : Dy :=
  let L := bitlen d.m
  if L ≤ 53 then d
  else
    let sh := L - 53
    ⟨rneDiv d.m (2 ^ sh), d.s - sh⟩

/-- The float64 nearest to `a / b` (for `a / b` positive and < 2^53, which
holds for every constant rounded in this development): round the infinitely
precise quotient to 53 significant bits, ties to even. -/
def fl64OfRat (a b : ℕ) : Dy :=
  if a = 0 then ⟨0, 0⟩
  else
    let s := (52 - floorLog2 a b).toNat
    ⟨rneDiv (a * 2 ^ s) b, s⟩

/-- Exact sum of two dyadic rationals (before float64 rounding). -/
def dyAdd (d e : Dy) : Dy :=
  let s := max d.s e.s
  ⟨d.m * 2 ^ (s - d.s) + e.m * 2 ^ (s - e.s), s⟩

/-- Exact product of a natural number and a dyadic rational (before float64
rounding). -/
def dyMulNat (n : ℕ) (d : Dy) : Dy := ⟨n * d.m, d.s⟩

/-- Truncation toward zero of a nonnegative dyadic rational, as performed by
`np.array(..., dtype=np.uint8)` on a nonnegative float64 below 256. -/
def Dy.trunc (d : Dy) : ℕ := d.m / 2 ^ d.s

/-! ## Grayscale stage

Source (`PencilSketch.__call__`):
`grayscale = np.array(np.dot(frame[..., :3], [0.299, 0.587, 0.114]), dtype=np.uint8)`
`grayscale = np.stack((grayscale,) * 3, axis=-1)`
-/

/-- The float64 value of the literal `0.299`. -/
def w299 : Dy := fl64OfRat 299 1000

/-- The float64 value of the literal `0.587`. -/
def w587 : Dy := fl64OfRat 587 1000

/-- The float64 value of the literal `0.114`. -/
def w114 : Dy := fl64OfRat 114 1000

/-- Per-pixel luma as the code computes it: the double-precision evaluation
of `r·0.299 + g·0.587 + b·0.114` (products and sums each rounded to
float64, accumulated left to right), truncated to uint8. -/
def lumaF64 (r g b : ℕ) : ℕ :=
  let p0 := fl64 (dyMulNat r w299)
  let p1 := fl64 (dyMulNat g w587)
  let p2 := fl64 (dyMulNat b w114)
  (fl64 (dyAdd (fl64 (dyAdd p0 p1)) p2)).trunc

/-- Luma as the specification words it: the exact weighted sum
`0.299·r + 0.587·g + 0.114·b`, truncated (not rounded) to an unsigned 8-bit
integer.  Stated over exact rationals: `(299r + 587g + 114b) / 1000` with
natural-number division being truncation.  Used to compare the claim against
the code's float64 luma. -/
def lumaExact (r g b : ℕ) : ℕ := (299 * r + 587 * g + 114 * b) / 1000

/-- A pixel buffer of shape `(height, width, channels)`; `data` is the
sample at (row, column, channel).  `α` is `ℕ` for ordinary uint8 buffers and
`Option ℕ` from the dodge stage on (see the module comment). -/
structure Buf (α : Type) where
  height : ℕ
  width : ℕ
  channels : ℕ
  data : ℕ → ℕ → ℕ → α

/-- Grayscale stage: luma over the first three channels (`frame[..., :3]`
ignores any further channels), replicated into 3 channels by
`np.stack((grayscale,) * 3, axis=-1)` — the output sample does not depend on
the channel index. -/
def grayscale (frame : Buf ℕ) : Buf ℕ :=
  { height := frame.height, width := frame.width, channels := 3,
    data := fun y x _ =>
      lumaF64 (frame.data y x 0) (frame.data y x 1) (frame.data y x 2) }

/-- Inversion `255 - x` (`inverted_img = 255 - grayscale`); samples are
≤ 255 so uint8 arithmetic does not wrap. -/
def invert (img : Buf ℕ) : Buf ℕ :=
  { img with data := fun y x c => 255 - img.data y x c }

/-! ## Border handling -/

/-- OpenCV `borderInterpolate(p, n, BORDER_REFLECT_101)`, the default border
of both `cv2.GaussianBlur` and `cv2.filter2D` (`BORDER_DEFAULT`): reflection
that does not repeat the edge pixel, `... 2 1 | 0 1 2 ... n-1 | n-2 n-3 ...`;
for `n = 1` OpenCV returns 0.  The iterated reflection is 2n−2 periodic,
which gives the closed form below. -/
def reflect101 (n : ℕ) (p : ℤ) : ℕ :=
  if n ≤ 1 then 0
  else
    let q := p % (2 * (n : ℤ) - 2)
    if q < n then q.toNat else (2 * (n : ℤ) - 2 - q).toNat

/-- The border policy the specification describes (`BORDER_REFLECT`):
reflection that repeats the edge pixel, so that virtual index −1 mirrors
index 0 (`... 1 0 | 0 1 2 ... n-1 | n-1 n-2 ...`).  Spec-side definition,
used only to compare the claim with the code's `reflect101`. -/
def reflectEdge (n : ℕ) (p : ℤ) : ℕ :=
  if n ≤ 1 then 0
  else
    let q := p % (2 * (n : ℤ))
    if q < n then q.toNat else (2 * (n : ℤ) - 1 - q).toNat

/-! ## Gaussian blur -/

/-- Kernel entry lookup in a row-major list of rows (missing entries read 0;
the kernels used in theorems are rectangular). -/
def kentry (K : List (List ℤ)) (i j : ℕ) : ℤ := (K.getD i []).getD j 0

/-- Sum of all kernel entries (in the same row-major access discipline as
the convolutions). -/
def ksum (K : List (List ℤ)) : ℤ :=
  ((List.range K.length).map fun i =>
    (((List.range (K.headD []).length).map fun j => kentry K i j)).sum).sum

/-- Rounding to nearest of `t / d` (`d > 0`), as OpenCV's fixed-point stage
does with `(t + (1 << (shift-1))) >> shift`. -/
def roundDiv (t : ℤ) (d : ℕ) : ℤ := (2 * t + d) / (2 * d)

/-- uint8 saturation, `saturate_cast<uchar>` on an integer. -/
def satCast (t : ℤ) : ℕ := (min 255 (max 0 t)).toNat

/-- Model of `cv2.GaussianBlur(img, ksize=self.ksize, sigmaX=self.blur_simga)`:
2D correlation of each channel with the kernel `Kn / D` (numerators `Kn`,
common denominator `D` — the shape of OpenCV's fixed-point uint8 Gaussian),
anchored at the centre, `BORDER_REFLECT_101` borders, round to nearest,
uint8 saturation.  The actual Gaussian coefficients for given sigma/ksize
are library internals; theorems quantify over `Kn` and `D` assuming only
`ksum Kn = D` (the kernel is normalised), which the real kernel satisfies. -/
def blurK (Kn : List (List ℤ)) (D : ℕ) (img : Buf ℕ) : Buf ℕ :=
  let rows := Kn.length
  let cols := (Kn.headD []).length
  { img with data := fun y x c =>
      let t : ℤ := ((List.range rows).map fun i =>
        (((List.range cols).map fun j =>
          kentry Kn i j *
            (img.data (reflect101 img.height ((y : ℤ) + i - rows / 2))
                      (reflect101 img.width ((x : ℤ) + j - cols / 2)) c : ℤ))).sum).sum
      satCast (roundDiv t D) }

/-! ## Dodge blend

Source (`PencilSketch.dodge`):
`result = back * 255.0 / (255.0 - front)`
`result[result > 255] = 255`
`result[back == 255] = 255`
`return result.astype('uint8')`
-/

/-- One sample of the dodge blend, in the exact integer arithmetic justified
in the module comment.  Branches, in the order the masks make observable:
`front = 255, back = 0` is `0.0/0.0 = NaN`, which passes both masks and
reaches `astype('uint8')` — unspecified, `none`; `front = 255, back > 0` is
+inf, clamped to 255 by the first mask; `back = 255` is forced to 255 by the
second mask; a quotient above 255 (`255 - front < back`) is clamped to 255;
otherwise the truncated quotient `255·back / (255−front)` is returned. -/
def dodgePixel (front back : ℕ) : Option ℕ :=
  if front = 255 then
    if back = 0 then none else some 255
  else if back = 255 then some 255
  else if 255 - front < back then some 255
  else some (back * 255 / (255 - front))

/-- Dodge stage over whole buffers: elementwise `dodgePixel`; numpy
broadcasting of two equal-shape arrays is elementwise. -/
def dodge (front back : Buf ℕ) : Buf (Option ℕ) :=
  { front with data := fun y x c => dodgePixel (front.data y x c) (back.data y x c) }

/-! ## Sharpen stage -/

/-- Sum of a list of optional integers; `none` (an unspecified sample inside
the window) makes the sum unspecified. -/
def sumO : List (Option ℤ) → Option ℤ
  | [] => some 0
  | o :: t =>
    match o, sumO t with
    | some a, some b => some (a + b)
    | _, _ => none

/-- Model of `cv2.filter2D(src, ddepth=-1, kernel)` on a uint8 image with an
integer kernel: correlation anchored at the kernel centre,
`BORDER_REFLECT_101` borders, `saturate_cast<uchar>` of the (integer) sum. -/
def filter2D (K : List (List ℤ)) (img : Buf (Option ℕ)) : Buf (Option ℕ) :=
  let rows := K.length
  let cols := (K.headD []).length
  { img with data := fun y x c =>
      (sumO ((List.range rows).map fun (i : ℕ) =>
        sumO ((List.range cols).map fun (j : ℕ) =>
          (img.data (reflect101 img.height ((y : ℤ) + i - rows / 2))
                    (reflect101 img.width ((x : ℤ) + j - cols / 2)) c).map
            fun v => kentry K i j * (v : ℤ)))).map satCast }

/-- Elementwise `255 - x` on an optional-sample buffer (`inverted = 255 -
image` and the outer `255 - cv2.filter2D(...)`; inputs are ≤ 255 so uint8
arithmetic does not wrap). -/
def invertO (img : Buf (Option ℕ)) : Buf (Option ℕ) :=
  { img with data := fun y x c => (img.data y x c).map (255 - ·) }

/-- The sharpening computation when it runs: invert, correlate with the
kernel, invert back (`255 - cv2.filter2D(src=255 - image, ddepth=-1,
kernel=self.kernel)`). -/
def unsharp (K : List (List ℤ)) (img : Buf (Option ℕ)) : Buf (Option ℕ) :=
  invertO (filter2D K (invertO img))

/-! ## Configuration and construction

Source (`PencilSketch.__init__`): stores `blur_simga`, `ksize`,
`sharpen_value` unchanged and sets
`self.kernel = np.array([[0, -1, 0], [-1, sharpen_value, -1], [0, -1, 0]])
if kernel is None and sharpen_value is not None else kernel`.
The body contains no validation and no `raise`.
-/

/-- The configuration object (`self` after `__init__`). -/
structure Config where
  blur_simga : ℤ
  ksize : ℤ × ℤ
  sharpen_value : Option ℤ
  kernel : Option (List (List ℤ))
  deriving DecidableEq

/-- The default 3×3 sharpening kernel derived from `sharpen_value`. -/
def defaultKernel (sv : ℤ) : List (List ℤ) := [[0, -1, 0], [-1, sv, -1], [0, -1, 0]]

/-- `PencilSketch.__init__`, embedded in the Python exception channel: the
body is straight-line assignment, so construction always returns `ok`. -/
inductive InitError where
  | invalidConfig
  deriving DecidableEq

/-- Construction as the code performs it.  Wrapped in `Except` so that
"raises at construction" is refutable: the source body never raises. -/
def init (blur_simga : ℤ) (ksize : ℤ × ℤ) (sharpen_value : Option ℤ)
    (kernel : Option (List (List ℤ))) : Except InitError Config :=
  Except.ok
    { blur_simga := blur_simga, ksize := ksize, sharpen_value := sharpen_value,
      kernel :=
        match kernel, sharpen_value with
        | none, some sv => some (defaultKernel sv)
        | k, _ => k }

/-- Whether a custom kernel is square with odd size, as the specification
demands of a valid kernel. -/
def squareOdd (K : List (List ℤ)) : Bool :=
  K.length % 2 == 1 && K.all fun row => row.length == K.length

/-- Construction as the specification words it: reject (raise
`InvalidConfig`) when `blurSigma ≤ 0` and `blurKernelSize == (0,0)`
simultaneously, or when a supplied custom kernel is not square/odd-sized;
otherwise construct as the code does.  Spec-side definition, used only to
compare the claim with the code's `init`. -/
def initSpec (blur_simga : ℤ) (ksize : ℤ × ℤ) (sharpen_value : Option ℤ)
    (kernel : Option (List (List ℤ))) : Except InitError Config :=
  if blur_simga ≤ 0 ∧ ksize = (0, 0) then Except.error InitError.invalidConfig
  else
    match kernel with
    | some K =>
      if squareOdd K then init blur_simga ksize sharpen_value kernel
      else Except.error InitError.invalidConfig
    | none => init blur_simga ksize sharpen_value kernel

/-- `PencilSketch.sharpen`: runs the double-invert correlation only when
`self.sharpen_value is not None and isinstance(self.sharpen_value, int)` —
in the model `sharpen_value` is an integer whenever present, so the guard is
`isSome`; otherwise the input is returned unchanged.  The stored kernel is
only consulted when the guard holds (a config built by `init` then always
carries one; on a hand-built config with no kernel Python would raise inside
`cv2.filter2D`, an unreachable case mapped to the identity). -/
def sharpen (cfg : Config) (img : Buf (Option ℕ)) : Buf (Option ℕ) :=
  if cfg.sharpen_value.isSome then
    match cfg.kernel with
    | some K => unsharp K img
    | none => img
  else img

/-! ## Pipeline -/

/-- Lift a uint8 buffer to optional samples (every sample specified). -/
def toO (img : Buf ℕ) : Buf (Option ℕ) :=
  { img with data := fun y x c => some (img.data y x c) }

/-- The pipeline without the sharpen stage: grayscale → invert → blur →
dodge.  This is the "dodge-blend-only pipeline" the specification compares
against. -/
def dodgeBlendOnly (Kn : List (List ℤ)) (D : ℕ) (frame : Buf ℕ) : Buf (Option ℕ) :=
  let g := grayscale frame
  dodge (blurK Kn D (invert g)) g

/-- `PencilSketch.__call__`: the full pipeline.  `Kn`/`D` is the Gaussian
kernel `cv2.GaussianBlur` derives from `cfg.blur_simga` and `cfg.ksize`
(library-internal; see `blurK`). -/
def applySketch (Kn : List (List ℤ)) (D : ℕ) (cfg : Config) (frame : Buf ℕ) :
    Buf (Option ℕ) :=
  let g := grayscale frame
  let blurred := blurK Kn D (invert g)
  let final := dodge blurred g
  sharpen cfg final

end PencilSketch

namespace PencilSketch

/-! ## Spec-side border-policy variants

The specification claims the convolutions reflect with the edge pixel
repeated (virtual index −1 reads index 0).  The following variants implement
that wording; they exist only to compare the claim against the code's
`BORDER_REFLECT_101` behaviour. -/

/-- The filter2D correlation under the specification's border policy
(`reflectEdge` instead of `reflect101`); otherwise identical to
`filter2D`. -/
def filter2DReflectEdge (K : List (List ℤ)) (img : Buf (Option ℕ)) : Buf (Option ℕ) :=
  let rows := K.length
  let cols := (K.headD []).length
  { img with data := fun y x c =>
      (sumO ((List.range rows).map fun (i : ℕ) =>
        sumO ((List.range cols).map fun (j : ℕ) =>
          (img.data (reflectEdge img.height ((y : ℤ) + i - rows / 2))
                    (reflectEdge img.width ((x : ℤ) + j - cols / 2)) c).map
            fun v => kentry K i j * (v : ℤ)))).map satCast }

/-- The double-invert sharpen computation under the specification's border
policy. -/
def unsharpReflectEdge (K : List (List ℤ)) (img : Buf (Option ℕ)) : Buf (Option ℕ) :=
  invertO (filter2DReflectEdge K (invertO img))

/-- The blur correlation under the specification's border policy
(`reflectEdge` instead of `reflect101`); otherwise identical to `blurK`. -/
def blurKReflectEdge (Kn : List (List ℤ)) (D : ℕ) (img : Buf ℕ) : Buf ℕ :=
  let rows := Kn.length
  let cols := (Kn.headD []).length
  { img with data := fun y x c =>
      let t : ℤ := ((List.range rows).map fun i =>
        (((List.range cols).map fun j =>
          kentry Kn i j *
            (img.data (reflectEdge img.height ((y : ℤ) + i - rows / 2))
                      (reflectEdge img.width ((x : ℤ) + j - cols / 2)) c : ℤ))).sum).sum
      satCast (roundDiv t D) }

/-! ## Concrete fixtures used in counterexamples and witnesses -/

/-- A 4×4, 3-channel buffer holding constant gray 200, the concrete scenario
of the specification's testable-properties section. -/
def frame200 : Buf ℕ := ⟨4, 4, 3, fun _ _ _ => 200⟩

/-- The configuration `PencilSketch(blur_simga=5, ksize=(0,0))` builds: no
sharpen value, no kernel. -/
def cfg7 : Config := ⟨5, (0, 0), none, none⟩

/-- A 1×1 buffer with 4 channels, pixel `(15, 39, 23)` plus an alpha-like
fourth channel 99: the exact weighted luma is 30 but the float64 evaluation
truncates to 29 (this value was checked to be accumulation-order and
FMA independent). -/
def frameC4 : Buf ℕ :=
  ⟨1, 1, 4, fun _ _ c => if c = 0 then 15 else if c = 1 then 39 else if c = 2 then 23 else 99⟩

/-- A 1×1, 3-channel optional-sample buffer of constant 200. -/
def imgC2 : Buf (Option ℕ) := ⟨1, 1, 3, fun _ _ _ => some 200⟩

/-- The configuration built by `PencilSketch(5, (0,0), sharpen_value=None,
kernel=[[2]])`: a custom kernel but no sharpen value. -/
def cfgC2 : Config := ⟨5, (0, 0), none, some [[2]]⟩

/-- The configuration built by `PencilSketch(5, (0,0), sharpen_value=0,
kernel=[[1,0,0]])`: the 1×3 kernel reads one pixel left of the anchor, which
at the left border exposes the border policy. -/
def cfgC5 : Config := ⟨5, (0, 0), some 0, some [[1, 0, 0]]⟩

/-- A 1×2 optional-sample buffer with left pixel 10, right pixel 20. -/
def imgC5 : Buf (Option ℕ) := ⟨1, 2, 3, fun _ x _ => if x = 0 then some 10 else some 20⟩

/-- A 1×2 uint8 buffer with left pixel 10, right pixel 20. -/
def imgC5n : Buf ℕ := ⟨1, 2, 3, fun _ x _ => if x = 0 then 10 else 20⟩

end PencilSketch

namespace PencilSketch

/-! ## Helper lemmas -/

/-- Dodge of a pure-white back sample is white, whatever the front sample. -/
theorem dodgePixel_back_white (front : ℕ) : dodgePixel front 255 = some 255 := by
  unfold dodgePixel
  split_ifs <;> simp_all

/-- Every specified dodge output sample fits in uint8. -/
theorem dodgePixel_le (front back v : ℕ) (h : dodgePixel front back = some v) : v ≤ 255 := by
  unfold dodgePixel at h
  split_ifs at h with h1 h2 h3 h4
  · have := Option.some.inj h; omega
  · have := Option.some.inj h; omega
  · have := Option.some.inj h; omega
  · have hv := Option.some.inj h
    subst hv
    rcases Nat.eq_zero_or_pos (255 - front) with hz | hp
    · simp [hz]
    · rw [Nat.div_le_iff_le_mul_add_pred hp]
      omega

end PencilSketch

namespace PencilSketch

/-! ## Claim C1 -/

/-- C1: the claim states that for every pixel with `front == 255` (zero
denominator), or whose computed quotient exceeds 255, the dodge output is
exactly 255 for every `back`, never dividing by zero or producing NaN.
The code violates this at exactly one point: `front = 255, back = 0`
computes `0.0/0.0 = NaN`, both masks miss it, and the NaN reaches
`astype('uint8')`, whose value is unspecified (`none` in the model) — not
255.  The remaining cases do saturate as claimed: `front = 255, back > 0`
gives +inf, clamped to 255, and a quotient exceeding 255 (equivalently
`255 - front < back` for `front < 255`) is clamped to 255. -/
theorem C1_dodge_nan_at_zero_denominator :
    dodgePixel 255 0 = none ∧
    (∀ back : ℕ, 0 < back → dodgePixel 255 back = some 255) ∧
    (∀ front back : ℕ, front < 255 → back ≤ 255 → 255 - front < back →
      dodgePixel front back = some 255) := by
  refine ⟨by decide, fun back hb => ?_, fun front back hf hb hq => ?_⟩
  · unfold dodgePixel
    rw [if_pos rfl, if_neg (by omega)]
  · unfold dodgePixel
    rw [if_neg (by omega)]
    by_cases h255 : back = 255
    · rw [if_pos h255]
    · rw [if_neg h255, if_pos hq]

/-- Witness for C1: the saturating branches evaluated at concrete inputs
through the theorem. -/
theorem C1_dodge_nan_at_zero_denominator_witness :
    dodgePixel 255 7 = some 255 ∧ dodgePixel 200 100 = some 255 :=
  ⟨C1_dodge_nan_at_zero_denominator.2.1 7 (by decide),
   C1_dodge_nan_at_zero_denominator.2.2 200 100 (by decide) (by decide) (by decide)⟩

/-! ## Claim C6 -/

/-- C6: identity at white — for every pixel whose grayscale ("back") value
is 255, the dodge-blend output at that pixel is 255, for every front value
(the `result[back == 255] = 255` mask, together with the `result > 255`
clamp catching the +inf case `front = 255`). -/
theorem C6_dodge_identity_at_white (front back : Buf ℕ) (y x c : ℕ)
    (h : back.data y x c = 255) : (dodge front back).data y x c = some 255 := by
  show dodgePixel (front.data y x c) (back.data y x c) = some 255
  rw [h]
  exact dodgePixel_back_white _

/-- Witness for C6: a buffer whose back sample is white. -/
theorem C6_dodge_identity_at_white_witness :
    (dodge imgC5n ⟨1, 2, 3, fun _ _ _ => 255⟩).data 0 1 2 = some 255 :=
  C6_dodge_identity_at_white imgC5n ⟨1, 2, 3, fun _ _ _ => 255⟩ 0 1 2 rfl

/-! ## Claim C3 -/

/-- Counterexample for C3: constructing with `blur_simga = 0` and
`ksize = (0,0)` — and likewise with a non-square custom kernel — raises
nothing: `__init__` returns normally with the arguments stored, while the
specification's construction-time validation (`initSpec`) would reject both
inputs. -/
theorem C3_counterexample :
    init 0 (0, 0) none none =
      Except.ok { blur_simga := 0, ksize := (0, 0), sharpen_value := none, kernel := none } ∧
    initSpec 0 (0, 0) none none = Except.error InitError.invalidConfig ∧
    init 5 (0, 0) none (some [[1, 0]]) =
      Except.ok { blur_simga := 5, ksize := (0, 0), sharpen_value := none,
                  kernel := some [[1, 0]] } ∧
    initSpec 5 (0, 0) none (some [[1, 0]]) = Except.error InitError.invalidConfig :=
  ⟨rfl, rfl, rfl, rfl⟩

/-- C3 amended: construction never raises — `__init__` performs no
validation at all and always returns a configuration storing its arguments
(deriving the default kernel when `kernel is None and sharpen_value is not
None`); inconsistent blur parameters or a malformed custom kernel are not
rejected at construction time. -/
theorem C3_init_never_raises (s : ℤ) (k : ℤ × ℤ) (sv : Option ℤ)
    (ker : Option (List (List ℤ))) :
    ∃ cfg : Config, init s k sv ker = Except.ok cfg ∧
      cfg.blur_simga = s ∧ cfg.ksize = k ∧ cfg.sharpen_value = sv :=
  ⟨_, rfl, rfl, rfl, rfl⟩

end PencilSketch

namespace PencilSketch

/-! ## Claim C4 -/

/-- Counterexample for C4: at the pixel `(15, 39, 23)` the exact weighted
sum is `30000/1000 = 30`, but the double-precision evaluation lands just
below 30 and the cast truncates to 29 (checked to be independent of the
accumulation order and of fused multiply-add).  So the grayscale stage is
not the truncation of the exact `0.299·R + 0.587·G + 0.114·B`. -/
theorem C4_counterexample :
    (grayscale frameC4).data 0 0 0 ≠
      lumaExact (frameC4.data 0 0 0) (frameC4.data 0 0 1) (frameC4.data 0 0 2) ∧
    (grayscale frameC4).data 0 0 0 = 29 ∧
    lumaExact (frameC4.data 0 0 0) (frameC4.data 0 0 1) (frameC4.data 0 0 2) = 30 := by
  refine ⟨by decide, by decide, by decide⟩

/-- C4 amended: the grayscale stage computes, for every pixel, the
double-precision (float64) evaluation of `0.299·c₀ + 0.587·c₁ + 0.114·c₂`
over the first three channels (channels past the third, e.g. alpha, are
ignored), truncates — not rounds — it to uint8, and replicates the value
into all 3 output channels.  The float64 truncation agrees with the exact
one except at pixels whose exact weighted sum lies within a few ulps of an
integer: `(15,39,23)` yields 29 where the exact sum is exactly 30.  The
truncation is genuine truncation (`(3,0,0)`, exact value 0.897, yields 0,
where rounding would give 1), and pure white is preserved (`(255,255,255)`
yields 255). -/
theorem C4_grayscale_float64_truncation :
    (∀ (frame : Buf ℕ) (y x c : ℕ), c < 3 →
      (grayscale frame).data y x c =
        lumaF64 (frame.data y x 0) (frame.data y x 1) (frame.data y x 2)) ∧
    lumaF64 15 39 23 = 29 ∧ lumaExact 15 39 23 = 30 ∧
    lumaF64 3 0 0 = 0 ∧ lumaF64 255 255 255 = 255 ∧ lumaF64 200 200 200 = 200 :=
  ⟨fun _ _ _ _ _ => rfl, by decide, by decide, by decide, by decide, by decide⟩

/-- Witness for C4: the pointwise description applied to the concrete
4-channel fixture (the fourth channel is ignored). -/
theorem C4_grayscale_float64_truncation_witness :
    (grayscale frameC4).data 0 0 2 =
      lumaF64 (frameC4.data 0 0 0) (frameC4.data 0 0 1) (frameC4.data 0 0 2) :=
  C4_grayscale_float64_truncation.1 frameC4 0 0 2 (by decide)

/-! ## Claim C2 -/

/-- Counterexample for C2: configure a custom kernel `[[2]]` and no sharpen
value (`PencilSketch(5, (0,0), None, [[2]])`).  The claim says the sharpen
stage is then applied; but `sharpen` tests only `sharpen_value` and returns
its input unchanged (200), while actually applying the configured kernel
would give 145 (`255 - 2·(255-200)`). -/
theorem C2_counterexample :
    init 5 (0, 0) none (some [[2]]) = Except.ok cfgC2 ∧
    (sharpen cfgC2 imgC2).data 0 0 0 = some 200 ∧
    (unsharp [[2]] imgC2).data 0 0 0 = some 145 ∧
    (sharpen cfgC2 imgC2).data 0 0 0 ≠ (unsharp [[2]] imgC2).data 0 0 0 :=
  ⟨rfl, rfl, by decide, by decide⟩

/-- C2 amended: the sharpen stage runs only when `sharpen_value` is set; if
`sharpen_value` is unset the stage returns its input unchanged even when a
custom kernel is configured.  Consequently, whenever the configuration's
`sharpen_value` is `None` — in particular when neither `sharpen_value` nor
a custom kernel is configured — `applySketch` equals the dodge-blend-only
pipeline. -/
theorem C2_sharpen_gate_is_sharpen_value :
    (∀ (cfg : Config) (img : Buf (Option ℕ)),
      cfg.sharpen_value = none → sharpen cfg img = img) ∧
    (∀ (Kn : List (List ℤ)) (D : ℕ) (cfg : Config) (frame : Buf ℕ),
      cfg.sharpen_value = none →
      applySketch Kn D cfg frame = dodgeBlendOnly Kn D frame) := by
  have h1 : ∀ (cfg : Config) (img : Buf (Option ℕ)),
      cfg.sharpen_value = none → sharpen cfg img = img := by
    intro cfg img h
    unfold sharpen
    rw [h]
    rfl
  exact ⟨h1, fun Kn D cfg frame h => h1 cfg _ h⟩

/-- Witness for C2: the no-op behaviour on the concrete
custom-kernel-but-no-sharpen-value configuration. -/
theorem C2_sharpen_gate_is_sharpen_value_witness :
    sharpen cfgC2 imgC2 = imgC2 ∧
    applySketch [[1]] 1 cfgC2 frame200 = dodgeBlendOnly [[1]] 1 frame200 :=
  ⟨C2_sharpen_gate_is_sharpen_value.1 cfgC2 imgC2 rfl,
   C2_sharpen_gate_is_sharpen_value.2 [[1]] 1 cfgC2 frame200 rfl⟩

end PencilSketch

namespace PencilSketch

/-! ## Claim C5 -/

/-- Counterexample for C5: the claim says virtual index −1 mirrors index 0.
In the code's border policy (OpenCV `BORDER_DEFAULT = BORDER_REFLECT_101`,
the default of both `cv2.GaussianBlur` and `cv2.filter2D`, neither call
passing a `borderType`), −1 mirrors index 1.  On a 1×2 image with pixels
(10, 20) and the 1×3 kernel `[[1,0,0]]` (which reads one pixel left of the
anchor), both the blur correlation and the sharpen stage produce at the left
border the value coming from index 1, not the index-0 value the claimed
policy (`reflectEdge`, spec-side) would give. -/
theorem C5_counterexample :
    reflect101 2 (-1) = 1 ∧ reflectEdge 2 (-1) = 0 ∧
    (blurK [[1, 0, 0]] 1 imgC5n).data 0 0 0 = 20 ∧
    (blurKReflectEdge [[1, 0, 0]] 1 imgC5n).data 0 0 0 = 10 ∧
    (sharpen cfgC5 imgC5).data 0 0 0 = some 20 ∧
    (unsharpReflectEdge [[1, 0, 0]] imgC5).data 0 0 0 = some 10 := by
  refine ⟨by decide, by decide, by decide, by decide, by decide, by decide⟩

/-- C5 amended: the blur and sharpen convolutions handle borders with
OpenCV's default `BORDER_REFLECT_101`: reflection that does not repeat the
edge pixel, so virtual index −(k+1) mirrors index k+1 (in particular −1
mirrors index 1, not index 0), as long as the reflection stays in range.
Concretely, at the left border of the 1×2 image (10, 20) with kernel
`[[1,0,0]]`, both stages read index 1 and produce 20. -/
theorem C5_border_reflect101 :
    (∀ n k : ℕ, 2 ≤ n → k + 1 < n → reflect101 n (-(k + 1 : ℤ)) = k + 1) ∧
    (∀ n : ℕ, 2 ≤ n → reflect101 n (-1) = 1) ∧
    (blurK [[1, 0, 0]] 1 imgC5n).data 0 0 0 = 20 ∧
    (sharpen cfgC5 imgC5).data 0 0 0 = some 20 := by
  have key : ∀ n k : ℕ, 2 ≤ n → k + 1 < n → reflect101 n (-(k + 1 : ℤ)) = k + 1 := by
    intro n k h2 hk
    have hm : (-(k + 1 : ℤ)) % (2 * (n : ℤ) - 2) = 2 * (n : ℤ) - 2 - (k + 1) := by
      have h1 : (-(k + 1 : ℤ)) % (2 * (n : ℤ) - 2) =
          (-(k + 1 : ℤ) + (2 * (n : ℤ) - 2)) % (2 * (n : ℤ) - 2) :=
        Int.emod_eq_add_self_emod
      rw [h1, Int.emod_eq_of_lt (by omega) (by omega)]
      ring
    simp only [reflect101]
    rw [if_neg (by omega), hm]
    split_ifs with h <;> omega
  exact ⟨key, fun n h2 => key n 0 h2 (by omega), by decide, by decide⟩

/-- Witness for C5: the general mirroring law evaluated at a concrete
length and offset. -/
theorem C5_border_reflect101_witness : reflect101 4 (-1) = 1 :=
  C5_border_reflect101.1 4 0 (by decide) (by decide)

end PencilSketch

namespace PencilSketch

/-! ## Claim C7 -/

/-- Factoring a constant out of a mapped sum. -/
theorem list_sum_map_mul_right {α : Type} (l : List α) (f : α → ℤ) (c : ℤ) :
    (l.map fun a => f a * c).sum = (l.map f).sum * c := by
  induction l with
  | nil => simp
  | cons h t ih => simp [ih, add_mul]

/-- C7: on the 4×4 constant-gray-200 buffer with `blur_simga=5`,
`ksize=(0,0)`, no sharpen value, the pipeline returns a 4×4×3 buffer of all
255s — for every normalised blur kernel (`ksum Kn = D`, satisfied by the
Gaussian kernel OpenCV derives for sigma 5), since the blur of a constant
field is that constant.  Note the grayscale of `(200,200,200)` is exactly
200 here (the float64 dot is exact at this input), the inverted value 55,
and `200·255/(255−55) = 255` exactly. -/
theorem C7_constant_gray_scenario (Kn : List (List ℤ)) (D : ℕ) (hD : 0 < D)
    (hsum : ksum Kn = (D : ℤ)) :
    init 5 (0, 0) none none = Except.ok cfg7 ∧
    (applySketch Kn D cfg7 frame200).height = 4 ∧
    (applySketch Kn D cfg7 frame200).width = 4 ∧
    (applySketch Kn D cfg7 frame200).channels = 3 ∧
    ∀ y x c : ℕ, y < 4 → x < 4 → c < 3 →
      (applySketch Kn D cfg7 frame200).data y x c = some 255 := by
  refine ⟨rfl, rfl, rfl, rfl, fun y x c _ _ _ => ?_⟩
  have hluma : lumaF64 200 200 200 = 200 := by decide
  have hinner : ∀ a b c2 : ℕ, (invert (grayscale frame200)).data a b c2 = 55 := by
    intro a b c2
    show 255 - lumaF64 200 200 200 = 55
    rw [hluma]
  have hblur : (blurK Kn D (invert (grayscale frame200))).data y x c = 55 := by
    simp only [blurK, hinner, Nat.cast_ofNat, list_sum_map_mul_right]
    show satCast (roundDiv (ksum Kn * 55) D) = 55
    rw [hsum]
    unfold roundDiv
    have h1 : 2 * ((D : ℤ) * 55) + (D : ℤ) = (D : ℤ) * 111 := by ring
    have h2 : 2 * (D : ℤ) = (D : ℤ) * 2 := by ring
    rw [h1, h2, Int.mul_ediv_mul_of_pos _ _ (by exact_mod_cast hD)]
    decide
  show dodgePixel ((blurK Kn D (invert (grayscale frame200))).data y x c)
      ((grayscale frame200).data y x c) = some 255
  rw [hblur]
  show dodgePixel 55 (lumaF64 200 200 200) = some 255
  rw [hluma]
  decide

/-- Witness for C7: the scenario evaluated with the concrete normalised 1×1
kernel. -/
theorem C7_constant_gray_scenario_witness :
    (applySketch [[1]] 1 cfg7 frame200).data 0 0 0 = some 255 :=
  (C7_constant_gray_scenario [[1]] 1 (by decide) (by decide)).2.2.2.2 0 0 0
    (by decide) (by decide) (by decide)

end PencilSketch

namespace PencilSketch

/-! ## Claim C8 -/

/-- The sharpen stage preserves buffer shape on both of its paths. -/
theorem sharpen_shape (cfg : Config) (img : Buf (Option ℕ)) :
    (sharpen cfg img).height = img.height ∧ (sharpen cfg img).width = img.width ∧
    (sharpen cfg img).channels = img.channels := by
  unfold sharpen
  split_ifs with hg
  · cases hk : cfg.kernel <;> exact ⟨rfl, rfl, rfl⟩
  · exact ⟨rfl, rfl, rfl⟩

/-- Every specified sample of the double-invert sharpen computation fits in
uint8 (the outermost inversion is `255 - w` in ℕ). -/
theorem unsharp_le (K : List (List ℤ)) (img : Buf (Option ℕ)) (y x c v : ℕ)
    (h : (unsharp K img).data y x c = some v) : v ≤ 255 := by
  unfold unsharp invertO at h
  rw [Option.map_eq_some'] at h
  obtain ⟨w, -, hw⟩ := h
  omega

/-- The sharpen stage preserves the uint8 sample bound. -/
theorem sharpen_le (cfg : Config) (img : Buf (Option ℕ))
    (himg : ∀ y x c v, img.data y x c = some v → v ≤ 255) :
    ∀ y x c v, (sharpen cfg img).data y x c = some v → v ≤ 255 := by
  intro y x c v h
  unfold sharpen at h
  split_ifs at h with hg
  · cases hk : cfg.kernel with
    | none => rw [hk] at h; exact himg y x c v h
    | some K => rw [hk] at h; exact unsharp_le K img y x c v h
  · exact himg y x c v h

/-- C8: for every input buffer with at least 3 channels and every
configuration (and every blur kernel, unconstrained), the pipeline output
has the input's height and width, exactly 3 channels, and every specified
sample fits in uint8 — the grayscale stage fixes the channel count at 3 and
every later stage preserves shape, while the dodge clamps and the sharpen
saturation keep samples in [0, 255]. -/
theorem C8_output_shape_and_uint8_range (Kn : List (List ℤ)) (D : ℕ) (cfg : Config)
    (frame : Buf ℕ) (_h3 : 3 ≤ frame.channels) :
    (applySketch Kn D cfg frame).height = frame.height ∧
    (applySketch Kn D cfg frame).width = frame.width ∧
    (applySketch Kn D cfg frame).channels = 3 ∧
    ∀ y x c v : ℕ, (applySketch Kn D cfg frame).data y x c = some v → v ≤ 255 := by
  refine ⟨?_, ?_, ?_, ?_⟩
  · exact (sharpen_shape cfg _).1
  · exact (sharpen_shape cfg _).2.1
  · exact (sharpen_shape cfg _).2.2
  · intro y x c v h
    have hd : ∀ y x c v : ℕ,
        (dodge (blurK Kn D (invert (grayscale frame))) (grayscale frame)).data y x c =
          some v → v ≤ 255 :=
      fun y x c v hh => dodgePixel_le _ _ v hh
    exact sharpen_le cfg _ hd y x c v h

/-- Witness for C8: shape of the concrete scenario output. -/
theorem C8_output_shape_and_uint8_range_witness :
    (applySketch [[1]] 1 cfg7 frame200).channels = 3 :=
  (C8_output_shape_and_uint8_range [[1]] 1 cfg7 frame200 (by decide)).2.2.1

/-! ## Claim C10 -/

/-- Channel uniformity of a buffer: all channels hold the same value at
every pixel. -/
def uniformCh {α : Type} (img : Buf α) : Prop :=
  ∀ y x c c' : ℕ, img.data y x c = img.data y x c'

/-- The grayscale stage replicates one luma value, so its output is
channel-uniform. -/
theorem uniformCh_grayscale (f : Buf ℕ) : uniformCh (grayscale f) :=
  fun _ _ _ _ => rfl

/-- Inversion preserves channel uniformity. -/
theorem uniformCh_invert {img : Buf ℕ} (h : uniformCh img) : uniformCh (invert img) := by
  intro y x c c'
  show 255 - img.data y x c = 255 - img.data y x c'
  rw [h y x c c']

/-- The blur correlation acts on each channel independently with the same
kernel, so it preserves channel uniformity. -/
theorem uniformCh_blurK (Kn : List (List ℤ)) (D : ℕ) {img : Buf ℕ} (h : uniformCh img) :
    uniformCh (blurK Kn D img) := by
  intro y x c c'
  have hs : ∀ a b : ℕ, img.data a b c = img.data a b c' := fun a b => h a b c c'
  simp only [blurK, hs]

/-- The dodge blend is elementwise, so it preserves channel uniformity. -/
theorem uniformCh_dodge {f b : Buf ℕ} (hf : uniformCh f) (hb : uniformCh b) :
    uniformCh (dodge f b) := by
  intro y x c c'
  show dodgePixel (f.data y x c) (b.data y x c) = dodgePixel (f.data y x c') (b.data y x c')
  rw [hf y x c c', hb y x c c']

/-- The filter2D correlation acts on each channel independently with the
same kernel, so it preserves channel uniformity. -/
theorem uniformCh_filter2D (K : List (List ℤ)) {img : Buf (Option ℕ)} (h : uniformCh img) :
    uniformCh (filter2D K img) := by
  intro y x c c'
  have hs : ∀ a b : ℕ, img.data a b c = img.data a b c' := fun a b => h a b c c'
  simp only [filter2D, hs]

/-- Optional-sample inversion preserves channel uniformity. -/
theorem uniformCh_invertO {img : Buf (Option ℕ)} (h : uniformCh img) :
    uniformCh (invertO img) := by
  intro y x c c'
  show (img.data y x c).map _ = (img.data y x c').map _
  rw [h y x c c']

/-- The sharpen stage preserves channel uniformity on both of its paths. -/
theorem uniformCh_sharpen (cfg : Config) {img : Buf (Option ℕ)} (h : uniformCh img) :
    uniformCh (sharpen cfg img) := by
  unfold sharpen
  split_ifs with hg
  · cases hk : cfg.kernel with
    | none => exact h
    | some K => exact uniformCh_invertO (uniformCh_filter2D K (uniformCh_invertO h))
  · exact h

/-- C10: channel uniformity — for every input frame, configuration and blur
kernel, every pixel of the pipeline output has all three channels equal:
the grayscale stage replicates one luma channel and every later stage acts
identically and independently on each channel. -/
theorem C10_output_channel_uniform (Kn : List (List ℤ)) (D : ℕ) (cfg : Config)
    (frame : Buf ℕ) (y x c c' : ℕ) (_hc : c < 3) (_hc' : c' < 3) :
    (applySketch Kn D cfg frame).data y x c = (applySketch Kn D cfg frame).data y x c' :=
  uniformCh_sharpen cfg
    (uniformCh_dodge
      (uniformCh_blurK Kn D (uniformCh_invert (uniformCh_grayscale frame)))
      (uniformCh_grayscale frame)) y x c c'

/-- Witness for C10: two channels of a concrete output pixel. -/
theorem C10_output_channel_uniform_witness :
    (applySketch [[1]] 1 cfgC2 frameC4).data 0 0 0 =
      (applySketch [[1]] 1 cfgC2 frameC4).data 0 0 1 :=
  C10_output_channel_uniform [[1]] 1 cfgC2 frameC4 0 0 0 1 (by decide) (by decide)

end PencilSketch
